import Mathlib

/-!
Verification of the Question-Generator repository (text_chunker.py,
document_processor.py, question_generator.py) against its specification.

Python strings are embedded as `List Char`.  Python `int` values that are
used as sizes or token budgets are embedded as `Nat` (the program only ever
constructs them from lengths and from the CLI default 3000).  Character
classes (`\s`, `\d`, `\w`, `str.lower`, `str.islower`, `str.isdigit`) are
modelled over ASCII, matching the characters the program manipulates.
Bounded fuel arguments appear where Python's regex scans are not
structurally recursive; the fuel is always instantiated so that it exceeds
the number of scanning steps, so the exhaustion branch is unreachable.
-/

abbrev Str := List Char

/-- Python whitespace for `str.strip` / regex `\s` (ASCII fragment). -/
def isPySpace (c : Char) : Bool :=
  c = ' ' || c = '\t' || c = '\n' || c = '\r' || c = '\x0b' || c = '\x0c'

/-- Python `str.strip()`. -/
def pyStrip (s : Str) : Str :=
  ((s.dropWhile isPySpace).reverse.dropWhile isPySpace).reverse

/-- Python `str.lower()` (ASCII). -/
def toLowerStr (s : Str) : Str := s.map Char.toLower

/-- Does `needle` occur at the start of `hay`?  (Python `str.startswith`.) -/
def strStarts : Str → Str → Bool
  | [], _ => true
  | _ :: _, [] => false
  | c :: cs, d :: ds => c = d && strStarts cs ds

/-- Does `needle` occur anywhere in `hay`?  (Python `in` on strings.) -/
def strContains (needle : Str) : Str → Bool
  | [] => needle.isEmpty
  | c :: rest => strStarts needle (c :: rest) || strContains needle rest

/-- Cons a character onto the first piece of a split result. -/
def consHead (c : Char) : List Str → List Str
  | [] => [[c]]
  | p :: ps => (c :: p) :: ps

/-- Worker for `pySplit`: scans left to right, cutting at each
non-overlapping occurrence of `sep`.  The fuel is at least the length of
the string, so the `0` branch is unreachable for nonempty input. -/
def pySplitGo (sep : Str) : Nat → Str → List Str
  | _, [] => [[]]
  | 0, s => [s]
  | fuel + 1, c :: rest =>
    if strStarts sep (c :: rest) then
      [] :: pySplitGo sep fuel ((c :: rest).drop sep.length)
    else
      consHead c (pySplitGo sep fuel rest)

/-- Python `str.split(sep)` for a nonempty separator. -/
def pySplit (sep s : Str) : List Str :=
  if sep.isEmpty then [s] else pySplitGo sep s.length s

/-- Python `sep.join(pieces)`. -/
def joinSep (sep : Str) : List Str → Str
  | [] => []
  | [x] => x
  | x :: y :: xs => x ++ sep ++ joinSep sep (y :: xs)

/-- Total character count of a list of strings. -/
def sumLen (l : List Str) : Nat := (l.map List.length).sum

/-- Sentence-terminal punctuation of the chunker's regex `[.!?]`. -/
def isSentPunct (c : Char) : Bool := c = '.' || c = '!' || c = '?'

/-- Is the first character whitespace? -/
def firstSpace : Str → Bool
  | [] => false
  | d :: _ => isPySpace d

/-- Worker for `splitSentences`: implements
`re.split(r'(?<=[.!?])\s+', paragraph)` — cut at every maximal whitespace
run whose preceding character is `.`, `!` or `?`, consuming the run. -/
def sentGoF : Nat → Str → Str → List Str
  | 0, acc, s => [acc.reverse ++ s]
  | _ + 1, acc, [] => [acc.reverse]
  | fuel + 1, acc, c :: rest =>
    if isSentPunct c && firstSpace rest then
      (c :: acc).reverse :: sentGoF fuel [] (rest.dropWhile isPySpace)
    else
      sentGoF fuel (c :: acc) rest

/-- `re.split(r'(?<=[.!?])\s+', paragraph)` from `_split_long_paragraph`. -/
def splitSentences (p : Str) : List Str := sentGoF p.length [] p

/-- The two-newline paragraph separator used by `chunk_by_paragraphs`. -/
def nl2 : Str := ['\n', '\n']

/-- `TextChunker.estimate_tokens`: `len(text) // 4`. -/
def estimate_tokens (text : Str) : Nat := text.length / 4

/-- The state built by `TextChunker.__init__`. -/
structure TextChunker where
  max_tokens : Nat
  overlap : Nat
  max_chars : Nat
  overlap_chars : Nat

/-- `TextChunker.__init__(max_tokens, overlap)`. -/
def TextChunker.init (maxTokens overlap : Nat) : TextChunker :=
  ⟨maxTokens, overlap, maxTokens * 4, overlap * 4⟩

/-- The sentence loop of `TextChunker._split_long_paragraph`: greedy
accumulation with a one-sentence overlap seed on overflow.  Argument order:
remaining sentences, `current_chunk`, `current_length`. -/
def sentLoop (mc : Nat) : List Str → List Str → Nat → List Str
  | [], cur, _ => if cur = [] then [] else [joinSep [' '] cur]
  | s :: rest, cur, curLen =>
    if pyStrip s = [] then
      sentLoop mc rest cur curLen
    else if mc < curLen + (pyStrip s).length ∧ cur ≠ [] then
      joinSep [' '] cur ::
        sentLoop mc rest [cur.getLastD [], pyStrip s]
          ((cur.getLastD []).length + (pyStrip s).length)
    else
      sentLoop mc rest (cur ++ [pyStrip s]) (curLen + (pyStrip s).length)

/-- `TextChunker._split_long_paragraph`. -/
def splitLongParagraph (mc : Nat) (p : Str) : List Str :=
  sentLoop mc (splitSentences p) [] 0

/-- The paragraph loop of `TextChunker.chunk_by_paragraphs`.  A paragraph
longer than `max_chars` flushes the buffer and is split by sentences; an
overflowing append flushes and seeds the next buffer with the last
paragraph of the closed chunk. -/
def paraLoop (mc : Nat) : List Str → List Str → Nat → List Str
  | [], cur, _ => if cur = [] then [] else [joinSep nl2 cur]
  | p :: rest, cur, curLen =>
    if pyStrip p = [] then
      paraLoop mc rest cur curLen
    else if mc < (pyStrip p).length then
      (if cur = [] then [] else [joinSep nl2 cur]) ++
        splitLongParagraph mc (pyStrip p) ++ paraLoop mc rest [] 0
    else if mc < curLen + (pyStrip p).length ∧ cur ≠ [] then
      joinSep nl2 cur ::
        paraLoop mc rest [cur.getLastD [], pyStrip p]
          ((cur.getLastD []).length + (pyStrip p).length)
    else
      paraLoop mc rest (cur ++ [pyStrip p]) (curLen + (pyStrip p).length)

/-- `TextChunker.chunk_by_paragraphs`. -/
def TextChunker.chunk_by_paragraphs (tc : TextChunker) (text : Str) : List Str :=
  paraLoop tc.max_chars (pySplit nl2 text) [] 0

/-- `TextChunker.chunk_text`. -/
def TextChunker.chunk_text (tc : TextChunker) (text : Str) : List Str :=
  if estimate_tokens text ≤ tc.max_tokens then [text]
  else tc.chunk_by_paragraphs text

/-- Case-insensitive literal match at the start of a string: if the
lowercase keyword `kw` matches a prefix of `s` (ignoring case), return the
remainder. -/
def ciStarts : Str → Str → Option Str
  | [], s => some s
  | _ :: _, [] => none
  | k :: ks, c :: cs => if Char.toLower c = k then ciStarts ks cs else none

/-- Matcher for the regex tail `\s*\n`: some prefix of whitespace followed
by a newline. -/
def tailNL : Str → Bool
  | [] => false
  | c :: rest => if c = '\n' then true else if isPySpace c then tailNL rest else false

/-- Does the reference-heading pattern `\n\s*KW\s*\n` (case-insensitive)
match at the start of `s`? -/
def refMatchAt (kw : Str) : Str → Bool
  | [] => false
  | c :: rest =>
    if c = '\n' then
      match ciStarts kw (rest.dropWhile isPySpace) with
      | some r => tailNL r
      | none => false
    else false

/-- Leftmost start index of a reference-heading match (`re.search`). -/
def findRefStart (kw : Str) : Str → Option Nat
  | [] => none
  | c :: rest =>
    if refMatchAt kw (c :: rest) then some 0
    else (findRefStart kw rest).map (· + 1)

/-- The `ref_patterns` list of `_remove_references_section`; all five
patterns are searched with `re.IGNORECASE`, so they reduce to their
lowercase keywords in source order. -/
def refPatterns : List Str :=
  [ "references".toList, "references".toList, "bibliography".toList,
    "bibliography".toList, "works cited".toList ]

/-- The pattern loop of `_remove_references_section`: the first pattern in
list order that matches anywhere truncates the text at its leftmost match
and the loop breaks. -/
def refLoop : List Str → Str → Str
  | [], text => text
  | kw :: kws, text =>
    match findRefStart kw text with
    | some i => text.take i
    | none => refLoop kws text

/-- `DocumentProcessor._remove_references_section`. -/
def remove_references_section (text : Str) : Str := refLoop refPatterns text

/-- The sentence-terminal characters of `_handle_two_column_format`'s
`endswith(('.', '!', '?', ':'))` check. -/
def termPunct (c : Char) : Bool := c = '.' || c = '!' || c = '?' || c = ':'

/-- Does the line end in sentence-terminal punctuation? -/
def endsTerm (s : Str) : Bool :=
  match s.getLast? with
  | some c => termPunct c
  | none => false

/-- Does the line start with a lowercase letter (`line[0].islower()`)? -/
def firstLower : Str → Bool
  | [] => false
  | c :: _ => c.isLower

/-- The line loop of `_handle_two_column_format`: drop stripped lines
shorter than 3 characters; skip a line whose stripped text does not end in
terminal punctuation when the next line's stripped text starts lowercase;
otherwise emit the stripped line. -/
def twoColKeep : List Str → List Str
  | [] => []
  | [l] =>
    let l2 := pyStrip l
    if l2.length < 3 then [] else [l2]
  | l :: next :: rest =>
    let l2 := pyStrip l
    if l2.length < 3 then twoColKeep (next :: rest)
    else
      let n2 := pyStrip next
      if l2 ≠ [] ∧ ¬endsTerm l2 = true ∧ n2 ≠ [] ∧ firstLower n2 = true then
        twoColKeep (next :: rest)
      else l2 :: twoColKeep (next :: rest)

/-- Regex `\w` (ASCII fragment). -/
def isWordChar (c : Char) : Bool := c.isAlphanum || c = '_'

/-- Is the first character a word character? -/
def firstWordChar : Str → Bool
  | [] => false
  | c :: _ => isWordChar c

/-- After `WORD-`, does `\s*\n\s*\w` match: a whitespace run containing a
newline, followed by a word character? -/
def hyphenBreakAfter (s : Str) : Bool :=
  (s.takeWhile isPySpace).contains '\n' && firstWordChar (s.dropWhile isPySpace)

/-- Scanner for `re.sub(r'(\w+)-\s*\n\s*(\w+)', r'\1\2', text)`: at a word
character followed by `-` and a newline-containing whitespace run and a
word run, the hyphen and whitespace are dropped and scanning resumes after
the following word run (the span of the regex match). -/
def hyphenFixGo : Nat → Str → Str
  | 0, s => s
  | _ + 1, [] => []
  | fuel + 1, c :: rest =>
    if isWordChar c then
      match rest with
      | '-' :: rs =>
        if hyphenBreakAfter rs then
          let afterWS := rs.dropWhile isPySpace
          c :: (afterWS.takeWhile isWordChar ++ hyphenFixGo fuel (afterWS.dropWhile isWordChar))
        else c :: hyphenFixGo fuel rest
      | _ => c :: hyphenFixGo fuel rest
    else c :: hyphenFixGo fuel rest

/-- `DocumentProcessor._handle_two_column_format`. -/
def handle_two_column_format (text : Str) : Str :=
  let t := joinSep ['\n'] (twoColKeep (pySplit ['\n'] text))
  hyphenFixGo t.length t

/-- Does the lowered stripped line contain one of the content-start
keywords of `_remove_author_affiliations`? -/
def keywordLineHit (l : Str) : Bool :=
  let ll := pyStrip (toLowerStr l)
  strContains "abstract".toList ll || strContains "introduction".toList ll ||
    strContains "i. introduction".toList ll

/-- Index of the first line satisfying `p`. -/
def firstIdxFrom (p : Str → Bool) : List Str → Option Nat
  | [] => none
  | l :: rest => if p l then some 0 else (firstIdxFrom p rest).map (· + 1)

/-- Literal prefix match returning the remainder. -/
def litAt (kw : Str) (s : Str) : Option Str :=
  if strStarts kw s then some (s.drop kw.length) else none

/-- Regex `\s+` at the start of a string. -/
def skipWs1 (s : Str) : Option Str :=
  if firstSpace s then some (s.dropWhile isPySpace) else none

/-- Regex `\d+` at the start of a string. -/
def skipDigits1 : Str → Option Str
  | [] => none
  | c :: rest =>
    if c.isDigit then some ((c :: rest).dropWhile Char.isDigit) else none

/-- `W1\s+W2` at the start of a string (literals given lowercase, text
already lowered). -/
def gapMatchAt (w1 w2 : Str) (s : Str) : Bool :=
  match litAt w1 s with
  | some r =>
    match skipWs1 r with
    | some r2 => (litAt w2 r2).isSome
    | none => false
  | none => false

/-- Regex `\d{5}` at the start of a string. -/
def fiveDigitsAt (s : Str) : Bool :=
  (s.take 5).length = 5 && (s.take 5).all Char.isDigit

/-- Unanchored search: does `p` match at some suffix? (`re.search`.) -/
def searchAny (p : Str → Bool) : Str → Bool
  | [] => p []
  | c :: rest => p (c :: rest) || searchAny p rest

/-- The `author_patterns` of `_remove_author_affiliations`, searched with
`re.IGNORECASE` over the stripped line. -/
def authorPatternHit (line : Str) : Bool :=
  let l := toLowerStr line
  strContains "@".toList l || strContains ".edu".toList l ||
    strContains ".com".toList l ||
    searchAny (gapMatchAt "department".toList "of".toList) l ||
    searchAny (gapMatchAt "university".toList "of".toList) l ||
    searchAny (gapMatchAt "institute".toList "of".toList) l ||
    searchAny fiveDigitsAt l

/-- A "substantial" candidate title line: stripped length over 20 and no
author-metadata pattern. -/
def goodTitleLine (rawLine : Str) : Bool :=
  let s := pyStrip rawLine
  20 < s.length && !authorPatternHit s

/-- The backward scan of `_remove_author_affiliations` from index `j`
down to 0, returning the first substantial line. -/
def backScan (lines : List Str) : Nat → Option Nat
  | 0 => if goodTitleLine (lines.getD 0 []) then some 0 else none
  | j + 1 =>
    if goodTitleLine (lines.getD (j + 1) []) then some (j + 1) else backScan lines j

/-- `DocumentProcessor._remove_author_affiliations`. -/
def remove_author_affiliations (text : Str) : Str :=
  let lines := pySplit ['\n'] text
  match firstIdxFrom keywordLineHit lines with
  | some i =>
    if 0 < i then
      match backScan lines (i - 1) with
      | some j => joinSep ['\n'] (lines.drop j)
      | none => text
    else text
  | none => text

/-- Regex `\s*$`: only whitespace remains. -/
def wsEndOnly (s : Str) : Bool := s.dropWhile isPySpace = []

/-- `^Page\s+\d+` (lowered text). -/
def patPage (s : Str) : Bool :=
  match litAt "page".toList s with
  | some r =>
    match skipWs1 r with
    | some r2 => (skipDigits1 r2).isSome
    | none => false
  | none => false

/-- `^\d+\s*$` — a standalone page number. -/
def patNum (s : Str) : Bool :=
  match skipDigits1 s with
  | some r => wsEndOnly r
  | none => false

/-- `^Copyright\s+` (lowered text). -/
def patCopyright (s : Str) : Bool :=
  match litAt "copyright".toList s with
  | some r => (skipWs1 r).isSome
  | none => false

/-- Regex `\d{4}` at the start of a string. -/
def skip4Digits (s : Str) : Option Str :=
  if (s.take 4).length = 4 && (s.take 4).all Char.isDigit then some (s.drop 4)
  else none

/-- `^\d{4}\s+IEEE` (lowered text). -/
def patYearIEEE (s : Str) : Bool :=
  match skip4Digits s with
  | some r =>
    match skipWs1 r with
    | some r2 => (litAt "ieee".toList r2).isSome
    | none => false
  | none => false

/-- `^IEEE\s+` (lowered text). -/
def patIEEE (s : Str) : Bool :=
  match litAt "ieee".toList s with
  | some r => (skipWs1 r).isSome
  | none => false

/-- `^Proceedings\s+of` (lowered text). -/
def patProceedings (s : Str) : Bool :=
  match litAt "proceedings".toList s with
  | some r =>
    match skipWs1 r with
    | some r2 => (litAt "of".toList r2).isSome
    | none => false
  | none => false

/-- `^\s*\d+\s*\|\s*Page` (lowered text). -/
def patNumPipePage (s : Str) : Bool :=
  match skipDigits1 (s.dropWhile isPySpace) with
  | some r =>
    match litAt "|".toList (r.dropWhile isPySpace) with
    | some r2 => (litAt "page".toList (r2.dropWhile isPySpace)).isSome
    | none => false
  | none => false

/-- `^Volume\s+\d+` (lowered text). -/
def patVolume (s : Str) : Bool :=
  match litAt "volume".toList s with
  | some r =>
    match skipWs1 r with
    | some r2 => (skipDigits1 r2).isSome
    | none => false
  | none => false

/-- `^Issue\s+\d+` (lowered text). -/
def patIssue (s : Str) : Bool :=
  match litAt "issue".toList s with
  | some r =>
    match skipWs1 r with
    | some r2 => (skipDigits1 r2).isSome
    | none => false
  | none => false

/-- `^DOI:\s*` (lowered text). -/
def patDOI (s : Str) : Bool := (litAt "doi:".toList s).isSome

/-- `^https?://` (lowered text). -/
def patURL (s : Str) : Bool :=
  match litAt "http".toList s with
  | some r =>
    match litAt "s".toList r with
    | some r2 => (litAt "://".toList r2).isSome
    | none => (litAt "://".toList r).isSome
  | none => false

/-- `^www\.` (lowered text). -/
def patWWW (s : Str) : Bool := (litAt "www.".toList s).isSome

/-- `^\[?\d+\]?\s*$` — a bracketed reference number. -/
def patRefNum (s : Str) : Bool :=
  let r0 := match litAt "[".toList s with
    | some r => r
    | none => s
  match skipDigits1 r0 with
  | some r1 =>
    let r2 := match litAt "]".toList r1 with
      | some r => r
      | none => r1
    wsEndOnly r2
  | none => false

/-- The `skip_patterns` disjunction of `_remove_common_headers_footers`,
applied to the stripped line (patterns are matched with `re.IGNORECASE`,
modelled by lowering the line). -/
def isHeaderFooterLine (stripped : Str) : Bool :=
  let l := toLowerStr stripped
  patPage l || patNum l || patCopyright l || patYearIEEE l || patIEEE l ||
    patProceedings l || patNumPipePage l || patVolume l || patIssue l ||
    patDOI l || patURL l || patWWW l || patRefNum l

/-- `DocumentProcessor._remove_common_headers_footers`: drop empty stripped
lines and header/footer lines, keeping the original line text. -/
def remove_common_headers_footers (text : Str) : Str :=
  joinSep ['\n'] ((pySplit ['\n'] text).filter
    (fun line => !(pyStrip line).isEmpty && !isHeaderFooterLine (pyStrip line)))

/-- The `main_sections` keyword list of `_extract_main_sections`. -/
def sectionNames : List Str :=
  [ "abstract".toList, "introduction".toList, "background".toList,
    "related work".toList, "methodology".toList, "method".toList,
    "approach".toList, "implementation".toList, "experiments".toList,
    "results".toList, "evaluation".toList, "discussion".toList,
    "conclusion".toList, "future work".toList ]

/-- The retention-stopping keywords of `_extract_main_sections`. -/
def stopNames : List Str :=
  [ "references".toList, "acknowledgment".toList, "appendix".toList ]

/-- The line loop of `_extract_main_sections` with its `in_main_section`
flag; a stop keyword inside a main section breaks out entirely. -/
def extractLoop : Bool → List Str → List Str
  | _, [] => []
  | inMain, l :: rest =>
    let ll := pyStrip (toLowerStr l)
    if sectionNames.any (fun n => strContains n ll) then l :: extractLoop true rest
    else if inMain then
      if stopNames.any (fun n => strContains n ll) then []
      else l :: extractLoop true rest
    else extractLoop false rest

/-- `DocumentProcessor._extract_main_sections` (fail-open when no section
header matched). -/
def extract_main_sections (text : Str) : Str :=
  let cl := extractLoop false (pySplit ['\n'] text)
  if cl = [] then text else joinSep ['\n'] cl

/-- Is the character a newline? -/
def nlChar (c : Char) : Bool := c = '\n'

/-- `re.sub(r'\n{3,}', '\n\n', text)`: collapse runs of three or more
newlines to exactly two. -/
def collapseNLGo : Nat → Str → Str
  | 0, s => s
  | _ + 1, [] => []
  | fuel + 1, '\n' :: '\n' :: '\n' :: rest =>
    '\n' :: '\n' :: collapseNLGo fuel (rest.dropWhile nlChar)
  | fuel + 1, c :: rest => c :: collapseNLGo fuel rest

/-- Regex `[ \t]`. -/
def spaceTab (c : Char) : Bool := c = ' ' || c = '\t'

/-- `re.sub(r'[ \t]+', ' ', text)`. -/
def collapseSpGo : Nat → Str → Str
  | 0, s => s
  | _ + 1, [] => []
  | fuel + 1, c :: rest =>
    if spaceTab c then ' ' :: collapseSpGo fuel (rest.dropWhile spaceTab)
    else c :: collapseSpGo fuel rest

/-- `str.replace(needle, '')` for a nonempty needle. -/
def removeAllSub (needle : Str) : Nat → Str → Str
  | 0, s => s
  | _ + 1, [] => []
  | fuel + 1, c :: rest =>
    if strStarts needle (c :: rest) then
      removeAllSub needle fuel ((c :: rest).drop needle.length)
    else c :: removeAllSub needle fuel rest

/-- After `[\d+`, consume `(,\s*\d+)*\]` and return the remainder. -/
def citeTailGo : Nat → Str → Option Str
  | 0, _ => none
  | _ + 1, ']' :: rest => some rest
  | fuel + 1, ',' :: rest =>
    match skipDigits1 (rest.dropWhile isPySpace) with
    | some r => citeTailGo fuel r
    | none => none
  | _ + 1, _ => none

/-- After an opening `[`, match `\d+(?:,\s*\d+)*\]` and return the
remainder. -/
def citeMatch (s : Str) : Option Str :=
  match skipDigits1 s with
  | some r => citeTailGo r.length r
  | none => none

/-- `re.sub(r'\[\d+(?:,\s*\d+)*\]', '', text)`: strip bracketed numeric
citation markers. -/
def removeCitesGo : Nat → Str → Str
  | 0, s => s
  | _ + 1, [] => []
  | fuel + 1, c :: rest =>
    if c = '[' then
      match citeMatch rest with
      | some r => removeCitesGo fuel r
      | none => c :: removeCitesGo fuel rest
    else c :: removeCitesGo fuel rest

/-- The fixed mojibake artifact removed by `clean_text`. -/
def mojibake : Str := "ï¿½".toList

/-- Step 6 of `DocumentProcessor.clean_text` (general normalization), in
source order. -/
def normalizeStep (text : Str) : Str :=
  let t1 := collapseNLGo text.length text
  let t2 := collapseSpGo t1.length t1
  let t3 := joinSep ['\n'] ((pySplit ['\n'] t2).map pyStrip)
  let t4 := pyStrip t3
  let t5 := removeAllSub mojibake t4.length t4
  removeCitesGo t5.length t5

/-- `DocumentProcessor.clean_text`: the full cleaning pipeline as a pure
function of the raw text. -/
def clean_text (raw : Str) : Str :=
  normalizeStep (extract_main_sections (remove_common_headers_footers
    (remove_author_affiliations (handle_two_column_format
      (remove_references_section raw)))))

/-- The literal conceptual-section marker of `parse_response`. -/
def conceptMarker : Str := "CONCEPTUAL QUESTIONS:".toList

/-- The literal factual-section marker of `parse_response`. -/
def factMarker : Str := "FACTUAL QUESTIONS:".toList

/-- Remainder after the first occurrence of `sep` (empty if absent). -/
def afterFirst (sep : Char) : Str → Str
  | [] => []
  | c :: rest => if c = sep then rest else afterFirst sep rest

/-- Python `s.split(sep, 1)[-1]`: everything after the first occurrence of
`sep`, or the whole string if `sep` is absent. -/
def splitOnceTail (sep : Char) (s : Str) : Str :=
  if s.contains sep then afterFirst sep s else s

/-- Does the stripped line begin with a digit or a dash
(`line[0].isdigit() or line.startswith('-')`, with the nonemptiness
guard)? -/
def startsEnum : Str → Bool
  | [] => false
  | c :: _ => c.isDigit || c = '-'

/-- The per-line extraction of `parse_response`: strip, require an
enumerated line, strip the enumerator up to the first `.` then the first
`)`, keep the remainder only if longer than 5 characters. -/
def extractQ (line : Str) : Option Str :=
  let l := pyStrip line
  if startsEnum l then
    let q := pyStrip (splitOnceTail ')' (splitOnceTail '.' l))
    if 5 < q.length then some q else none
  else none

/-- The two question lists produced by the generator. -/
structure Questions where
  factual : List Str
  conceptual : List Str
deriving DecidableEq

/-- `QuestionGenerator.parse_response`. -/
def parse_response (response : Str) : Questions :=
  let sections := pySplit conceptMarker response
  let factualSection := if sections.length = 2 then sections.getD 0 [] else response
  let conceptualSection := if sections.length = 2 then sections.getD 1 [] else []
  let factualPart := (pySplit factMarker factualSection).getLastD []
  ⟨(pySplit ['\n'] (pyStrip factualPart)).filterMap extractQ,
   (pySplit ['\n'] (pyStrip conceptualSection)).filterMap extractQ⟩

/-- Decimal rendering of a natural number. -/
def natStr (n : Nat) : Str := (toString n).toList

/-- The prompt template text before the chunk context. -/
def promptPre : Str :=
  "You are an expert educator creating study questions from academic or educational content.\n\nGiven the following document".toList

/-- The prompt template text between the chunk context and the document. -/
def promptMid : Str :=
  ", generate high-quality questions that help students understand and test their comprehension.\n\nREQUIREMENTS:\n1. Generate 5-10 factual questions (who, what, when, where, which)\n   - These should test recall of specific facts from the document\n   - Prefer questions with one-word or short answers\n   \n2. Generate 3-5 conceptual questions (why, how, explain)\n   - These should test deeper understanding\n   - Focus on concepts, relationships, and reasoning\n\n3. All questions must:\n   - Be directly answerable from the document content\n   - Be grammatically correct and clear\n   - Not be vague or ambiguous\n   - Not repeat or be too similar to each other\n   - Cover different sections/topics in the document\n\n4. Format your response EXACTLY as follows:\nFACTUAL QUESTIONS:\n1. [Question]\n2. [Question]\n...\n\nCONCEPTUAL QUESTIONS:\n1. [Question]\n2. [Question]\n...\n\nDOCUMENT:\n".toList

/-- The prompt template text after the document. -/
def promptPost : Str :=
  "\n\nNow generate the questions following the format above:".toList

/-- `QuestionGenerator.create_prompt`. -/
def create_prompt (docText : Str) (chunkNum totalChunks : Option Nat) : Str :=
  let chunkContext := match chunkNum, totalChunks with
    | some k, some n =>
      "\n(Note: This is chunk ".toList ++ natStr k ++ " of ".toList ++ natStr n ++
        " from a larger document)".toList
    | _, _ => []
  promptPre ++ chunkContext ++ promptMid ++ docText ++ promptPost

/-- `QuestionGenerator.generate_from_text` on the successful path: the
external generation call is an arbitrary function `llm` from prompt text to
response text. -/
def generate_from_text (llm : Str → Str) (docText : Str)
    (chunkNum totalChunks : Option Nat) : Questions :=
  parse_response (llm (create_prompt docText chunkNum totalChunks))

/-- Python `q.lower().strip().rstrip('?')`: strip all trailing question
marks after lowering and stripping. -/
def rstripQmark (s : Str) : Str := (s.reverse.dropWhile (fun c => c = '?')).reverse

/-- The normalization key of `_remove_duplicates`. -/
def normQ (q : Str) : Str := rstripQmark (pyStrip (toLowerStr q))

/-- The loop of `_remove_duplicates`: keep the first occurrence of each
normalization key, in order. -/
def dedupGo (seen : List Str) : List Str → List Str
  | [] => []
  | q :: rest =>
    if normQ q ∈ seen then dedupGo seen rest
    else q :: dedupGo (normQ q :: seen) rest

/-- `QuestionGenerator._remove_duplicates`. -/
def remove_duplicates (qs : List Str) : List Str := dedupGo [] qs

/-- The chunk loop of `generate_from_chunks`: one generation call per
chunk, enumerated from 1, concatenating per-chunk results in order. -/
def gfcLoop (llm : Str → Str) (total : Nat) : Nat → List Str → Questions
  | _, [] => ⟨[], []⟩
  | i, c :: rest =>
    let q := generate_from_text llm c (some i) (some total)
    let r := gfcLoop llm total (i + 1) rest
    ⟨q.factual ++ r.factual, q.conceptual ++ r.conceptual⟩

/-- `QuestionGenerator.generate_from_chunks`: concatenate, deduplicate each
category, truncate factual to 7 and conceptual to 3. -/
def generate_from_chunks (llm : Str → Str) (chunks : List Str) : Questions :=
  let all := gfcLoop llm chunks.length 1 chunks
  ⟨(remove_duplicates all.factual).take 7, (remove_duplicates all.conceptual).take 3⟩

/-- C1: for every text whose estimated token count (length divided by 4,
integer division) is at most `max_tokens`, `chunk_text` returns exactly the
one-element list containing the input text. -/
theorem chunk_text_short_single (T o : Nat) (text : Str)
    (h : estimate_tokens text ≤ T) :
    (TextChunker.init T o).chunk_text text = [text] := by
  simp [TextChunker.chunk_text, TextChunker.init, h]

/-- Witness for `chunk_text_short_single` at `max_tokens = 3000`,
`text = "hello"`. -/
theorem chunk_text_short_single_witness :
    estimate_tokens "hello".toList ≤ 3000 ∧
      (TextChunker.init 3000 200).chunk_text "hello".toList = ["hello".toList] :=
  ⟨by decide, chunk_text_short_single 3000 200 "hello".toList (by decide)⟩

/-- C3 counterexample: on the empty string `chunk_text` returns the
one-element list `[""]`, not the empty list the claim asserts. -/
theorem chunk_text_empty_counterexample :
    (TextChunker.init 3000 200).chunk_text [] ≠ [] ∧
      (TextChunker.init 3000 200).chunk_text [] = [[]] := by decide

/-- C3 amended: for the empty string, `chunk_text` returns the one-element
list containing the empty string (the short-text fast path applies because
the estimated token count 0 is at most `max_tokens`), so callers always get
at least one chunk. -/
theorem chunk_text_empty_single (T o : Nat) :
    (TextChunker.init T o).chunk_text [] = [[]] := by
  simp [TextChunker.chunk_text, TextChunker.init, estimate_tokens]

/-- C4: at the input `"hello world\ncontinues here."`, the column-merge
stage drops the line `"hello world"` entirely instead of joining it with
the following line — its text is absent from the output. -/
theorem two_column_drop_eval :
    handle_two_column_format "hello world\ncontinues here.".toList
        = "continues here.".toList ∧
      strContains "hello".toList
        (handle_two_column_format "hello world\ncontinues here.".toList) = false := by
  decide

/-- C6 counterexample: on the spec's exact example response, the
placeholder questions `Q1`, `Q2`, `Q3` are only 2 characters long, fail the
`len(question) > 5` filter, and `parse_response` returns two empty lists
instead of the claimed `factual=["Q1","Q2"], conceptual=["Q3"]`. -/
theorem parse_example_counterexample :
    parse_response
        "FACTUAL QUESTIONS:\n1. Q1\n2. Q2\n\nCONCEPTUAL QUESTIONS:\n1. Q3".toList
        = ⟨[], []⟩ ∧
      parse_response
        "FACTUAL QUESTIONS:\n1. Q1\n2. Q2\n\nCONCEPTUAL QUESTIONS:\n1. Q3".toList
        ≠ ⟨["Q1".toList, "Q2".toList], ["Q3".toList]⟩ := by decide

/-- C6 amended: on a response of the same shape whose question texts are
longer than 5 characters, `parse_response` yields exactly those questions
in the two categories. -/
theorem parse_example_long_questions :
    parse_response
        "FACTUAL QUESTIONS:\n1. What is AAA?\n2. What is BBB?\n\nCONCEPTUAL QUESTIONS:\n1. Why is CCC true?".toList
      = ⟨["What is AAA?".toList, "What is BBB?".toList],
         ["Why is CCC true?".toList]⟩ := by decide

/-- C7 counterexample: a response containing neither section marker still
yields a factual question: the whole response is treated as the factual
section, so its enumerated line is harvested, contradicting the claim of
zero extracted questions in both categories. -/
theorem parse_no_marker_counterexample :
    strContains factMarker "1. What is the capital of France?".toList = false ∧
      strContains conceptMarker "1. What is the capital of France?".toList = false ∧
      parse_response "1. What is the capital of France?".toList
        = ⟨["What is the capital of France?".toList], []⟩ := by decide

/-- C8 counterexample: through the single-chunk path `generate_from_text`,
a response repeating the same question verbatim produces a factual list
with two entries equal after case-folding and trailing-punctuation
normalization — no deduplication runs on this path. -/
theorem dedup_single_path_counterexample :
    (generate_from_text
          (fun _ =>
            "FACTUAL QUESTIONS:\n1. What is X?\n2. What is X?\n\nCONCEPTUAL QUESTIONS:\n1. Why is Y true?".toList)
          "doc".toList none none).factual
        = ["What is X?".toList, "What is X?".toList] ∧
      ¬ List.Pairwise (fun a b => normQ a ≠ normQ b)
        (generate_from_text
          (fun _ =>
            "FACTUAL QUESTIONS:\n1. What is X?\n2. What is X?\n\nCONCEPTUAL QUESTIONS:\n1. Why is Y true?".toList)
          "doc".toList none none).factual := by decide

/-- C9: the chunk sequence produced by `chunk_text` does not depend on the
`overlap` constructor parameter: for any two overlap values the results
coincide (the computed `overlap_chars` is never read on the chunking
paths). -/
theorem chunk_text_overlap_independent (T o1 o2 : Nat) (text : Str) :
    (TextChunker.init T o1).chunk_text text
      = (TextChunker.init T o2).chunk_text text := rfl

/-- C10 counterexample: the cleaner is not idempotent — a second
application changes the text further (beyond normalization no-ops). -/
theorem clean_idempotent_counterexample :
    clean_text (clean_text "abstract\nHello World\nand more text here.".toList)
      ≠ clean_text "abstract\nHello World\nand more text here.".toList := by decide

/-- C10 amended: `clean` is not idempotent in general: on already-cleaned
text the column-merge stage can drop further lines that do not end in
terminal punctuation when the next line starts lowercase.  At the input
below, the first pass keeps the line `"abstract"`, while the second pass
drops it. -/
theorem clean_second_pass_drops :
    clean_text "abstract\nHello World\nand more text here.".toList
        = "abstract\nand more text here.".toList ∧
      clean_text (clean_text "abstract\nHello World\nand more text here.".toList)
        = "and more text here.".toList := by decide

/-- C2 counterexample: with `max_tokens = 3` (so `max_chars = 12`), the
input `"aaaaaaaaa.\n\nbbbbbbb."` produces a chunk whose estimated token
count is 5 > 3, yet neither the chunk nor any source paragraph contains an
indivisible sentence longer than `max_tokens * 4` characters: the seeded
overlap paragraph plus the two-character paragraph separator cause the
overshoot, not an oversized sentence. -/
theorem chunk_overshoot_counterexample :
    ∃ c ∈ (TextChunker.init 3 200).chunk_text "aaaaaaaaa.\n\nbbbbbbb.".toList,
      3 < estimate_tokens c ∧
      (∀ s ∈ splitSentences c, s.length ≤ 3 * 4) ∧
      (∀ p ∈ pySplit nl2 "aaaaaaaaa.\n\nbbbbbbb.".toList,
        ∀ s ∈ splitSentences (pyStrip p), (pyStrip s).length ≤ 3 * 4) := by decide

/-- C5 counterexample: in
`"intro text here\nBIBLIOGRAPHY\nbbb\nREFERENCES\nccc\n"` the BIBLIOGRAPHY
heading occurs first in document order (match start 15) and the REFERENCES
heading later (match start 32), yet the code truncates at REFERENCES
because patterns are tried in a fixed priority order; the text `"bbb"`
following the first heading survives into the cleaned output. -/
theorem references_order_counterexample :
    remove_references_section
        "intro text here\nBIBLIOGRAPHY\nbbb\nREFERENCES\nccc\n".toList
        = "intro text here\nBIBLIOGRAPHY\nbbb".toList ∧
      findRefStart "bibliography".toList
        "intro text here\nBIBLIOGRAPHY\nbbb\nREFERENCES\nccc\n".toList = some 15 ∧
      findRefStart "references".toList
        "intro text here\nBIBLIOGRAPHY\nbbb\nREFERENCES\nccc\n".toList = some 32 ∧
      clean_text "intro text here\nBIBLIOGRAPHY\nbbb\nREFERENCES\nccc\n".toList
        = "intro text here\nbbb".toList ∧
      strContains "bbb".toList
        (clean_text "intro text here\nBIBLIOGRAPHY\nbbb\nREFERENCES\nccc\n".toList)
        = true := by decide

/-- The dedup loop emits a list whose normalization keys are pairwise
distinct and disjoint from the already-seen keys. -/
theorem dedupGo_spec (qs : List Str) :
    ∀ seen : List Str,
      List.Pairwise (fun a b => normQ a ≠ normQ b) (dedupGo seen qs) ∧
        ∀ q ∈ dedupGo seen qs, normQ q ∉ seen := by
  induction qs with
  | nil => intro seen; exact ⟨List.Pairwise.nil, by simp [dedupGo]⟩
  | cons q rest ih =>
    intro seen
    by_cases h : normQ q ∈ seen
    · simpa only [dedupGo, if_pos h] using ih seen
    · obtain ⟨hp, hmem⟩ := ih (normQ q :: seen)
      simp only [dedupGo, if_neg h]
      constructor
      · refine List.Pairwise.cons (fun b hb => ?_) hp
        have hb2 := hmem b hb
        simp only [List.mem_cons, not_or] at hb2
        exact fun he => hb2.1 he.symm
      · intro x hx
        rcases List.mem_cons.mp hx with rfl | hx2
        · exact h
        · have hx3 := hmem x hx2
          simp only [List.mem_cons, not_or] at hx3
          exact hx3.2

/-- C8 amended: the multi-chunk path `generate_from_chunks` does satisfy
the QuestionSet invariant for every generation function and every chunk
list: in each of the two output lists, no two entries are equal after
case-folding and trailing-question-mark normalization.  (The single-chunk
path `generate_from_text` does not deduplicate, see the counterexample.) -/
theorem generate_from_chunks_nodup (llm : Str → Str) (chunks : List Str) :
    List.Pairwise (fun a b => normQ a ≠ normQ b)
        (generate_from_chunks llm chunks).factual ∧
      List.Pairwise (fun a b => normQ a ≠ normQ b)
        (generate_from_chunks llm chunks).conceptual := by
  constructor
  · exact List.Pairwise.sublist (List.take_sublist _ _) (dedupGo_spec _ []).1
  · exact List.Pairwise.sublist (List.take_sublist _ _) (dedupGo_spec _ []).1

/-- When `sep` occurs nowhere in `s`, the split loop returns the whole
string as a single piece. -/
theorem pySplitGo_no_occur (sep : Str) :
    ∀ (s : Str) (fuel : Nat), s.length ≤ fuel → strContains sep s = false →
      pySplitGo sep fuel s = [s] := by
  intro s
  induction s with
  | nil => intro fuel _ _; cases fuel <;> rfl
  | cons c rest ih =>
    intro fuel hlen hno
    cases fuel with
    | zero => simp at hlen
    | succ f =>
      simp only [strContains, Bool.or_eq_false_iff] at hno
      simp only [pySplitGo, hno.1, Bool.false_eq_true, if_false]
      rw [ih f (by simp only [List.length_cons] at hlen; omega) hno.2]
      rfl

/-- When `sep` occurs nowhere in `s`, `pySplit` returns `[s]`. -/
theorem pySplit_no_occur (sep s : Str) (hsep : sep ≠ [])
    (hno : strContains sep s = false) : pySplit sep s = [s] := by
  unfold pySplit
  rw [if_neg (by simpa using hsep)]
  exact pySplitGo_no_occur sep s s.length le_rfl hno

/-- C7 amended: a response that does not contain the literal marker
`CONCEPTUAL QUESTIONS:` always yields an empty conceptual list (the
conceptual section defaults to the empty string), and `parse_response` is a
total function, never raising.  The factual side is *not* empty in general:
lacking both markers, the whole response is treated as the factual section
and enumerated lines are still harvested (see the counterexample). -/
theorem parse_no_marker_conceptual (r : Str)
    (h : strContains conceptMarker r = false) :
    (parse_response r).conceptual = [] := by
  have hsplit : pySplit conceptMarker r = [r] :=
    pySplit_no_occur conceptMarker r (by decide) h
  unfold parse_response
  rw [hsplit]
  simp only [List.length_singleton, if_neg (by decide : ¬(1 : Nat) = 2)]
  decide

/-- Witness for `parse_no_marker_conceptual` at a marker-free response. -/
theorem parse_no_marker_conceptual_witness :
    strContains conceptMarker "no markers at all here".toList = false ∧
      (parse_response "no markers at all here".toList).conceptual = [] :=
  ⟨by decide, parse_no_marker_conceptual "no markers at all here".toList (by decide)⟩

/-- Dropping a satisfied prefix distributes over append when something of
the first list survives. -/
theorem dropWhile_append_of_ne_nil (p : Char → Bool) :
    ∀ (s t : Str), s.dropWhile p ≠ [] → (s ++ t).dropWhile p = s.dropWhile p ++ t := by
  intro s t
  induction s with
  | nil => intro h; simp at h
  | cons c cs ih =>
    intro h
    by_cases hc : p c = true
    · simp only [List.dropWhile_cons, hc, if_true] at h ⊢
      simp only [List.cons_append, List.dropWhile_cons, hc, if_true]
      exact ih h
    · simp only [List.cons_append, List.dropWhile_cons, hc]
      simp

/-- A successful case-insensitive prefix match extends along append. -/
theorem ciStarts_append (kw : Str) :
    ∀ (s t r : Str), ciStarts kw s = some r → ciStarts kw (s ++ t) = some (r ++ t) := by
  induction kw with
  | nil =>
    intro s t r h
    simp only [ciStarts, Option.some_inj] at h
    subst h
    rfl
  | cons k ks ih =>
    intro s t r h
    cases s with
    | nil => simp [ciStarts] at h
    | cons c cs =>
      simp only [ciStarts, List.cons_append] at h ⊢
      by_cases hc : Char.toLower c = k
      · rw [if_pos hc] at h ⊢
        exact ih cs t r h
      · rw [if_neg hc] at h
        exact absurd h (by simp)

/-- A successful `\s*\n` tail match extends along append. -/
theorem tailNL_append : ∀ (s t : Str), tailNL s = true → tailNL (s ++ t) = true := by
  intro s t
  induction s with
  | nil => intro h; simp [tailNL] at h
  | cons c cs ih =>
    intro h
    simp only [tailNL, List.cons_append] at h ⊢
    by_cases hc : c = '\n'
    · simp [hc]
    · rw [if_neg hc] at h ⊢
      by_cases hsp : isPySpace c = true
      · rw [if_pos hsp] at h ⊢
        exact ih h
      · rw [if_neg hsp] at h
        exact absurd h (by simp)

/-- A heading match at the start of a string survives appending text. -/
theorem refMatchAt_append (kw : Str) (hkw : kw ≠ []) (s t : Str)
    (h : refMatchAt kw s = true) : refMatchAt kw (s ++ t) = true := by
  cases s with
  | nil => simp [refMatchAt] at h
  | cons c rest =>
    simp only [refMatchAt, List.cons_append] at h ⊢
    by_cases hc : c = '\n'
    · rw [if_pos hc] at h ⊢
      cases hci : ciStarts kw (rest.dropWhile isPySpace) with
      | none => rw [hci] at h; simp at h
      | some r =>
        rw [hci] at h
        have hne : rest.dropWhile isPySpace ≠ [] := by
          intro he
          rw [he] at hci
          cases kw with
          | nil => exact hkw rfl
          | cons k ks => simp [ciStarts] at hci
        rw [dropWhile_append_of_ne_nil _ _ _ hne, ciStarts_append kw _ t r hci]
        exact tailNL_append r t h
    · rw [if_neg hc] at h
      exact absurd h (by simp)

/-- `findRefStart` returns the leftmost match position: the pattern matches
at the returned index and at no earlier index. -/
theorem findRefStart_spec (kw : Str) :
    ∀ (s : Str) (i : Nat), findRefStart kw s = some i →
      refMatchAt kw (s.drop i) = true ∧
        ∀ j, j < i → refMatchAt kw (s.drop j) = false := by
  intro s
  induction s with
  | nil => intro i h; simp [findRefStart] at h
  | cons c rest ih =>
    intro i h
    simp only [findRefStart] at h
    by_cases hm : refMatchAt kw (c :: rest) = true
    · rw [if_pos hm] at h
      simp only [Option.some_inj] at h
      subst h
      exact ⟨hm, fun j hj => absurd hj (Nat.not_lt_zero j)⟩
    · rw [if_neg hm] at h
      cases hfr : findRefStart kw rest with
      | none => rw [hfr] at h; simp at h
      | some i2 =>
        rw [hfr] at h
        simp only [Option.map_some', Option.some_inj] at h
        subst h
        obtain ⟨h1, h2⟩ := ih i2 hfr
        refine ⟨by simpa [List.drop_succ_cons] using h1, fun j hj => ?_⟩
        cases j with
        | zero => simpa using (Bool.not_eq_true _).mp hm
        | succ j2 =>
          simpa [List.drop_succ_cons] using h2 j2 (Nat.succ_lt_succ_iff.mp hj)

/-- When the REFERENCES pattern matches, `_remove_references_section`
truncates at its leftmost match: the first pattern in the priority list
wins regardless of where other headings occur. -/
theorem remove_references_head (text : Str) (i : Nat)
    (h : findRefStart "references".toList text = some i) :
    remove_references_section text = text.take i := by
  have h2 : findRefStart ['r', 'e', 'f', 'e', 'r', 'e', 'n', 'c', 'e', 's'] text = some i := h
  simp [remove_references_section, refPatterns, refLoop, h2]

/-- C5 amended: the heading patterns are tried in the fixed priority order
REFERENCES, BIBLIOGRAPHY, WORKS CITED (each requiring a preceding and a
following newline), and the text is truncated at the leftmost match of the
first pattern that matches anywhere — not at the first heading in document
order.  In particular, whenever a REFERENCES heading matches at leftmost
position `i`, the output is exactly the prefix before it and contains no
REFERENCES heading match at all; an earlier BIBLIOGRAPHY or WORKS CITED
heading may survive in the output. -/
theorem references_priority_trunc (text : Str) (i : Nat)
    (h : findRefStart "references".toList text = some i) :
    remove_references_section text = text.take i ∧
      ∀ j, refMatchAt "references".toList ((text.take i).drop j) = false := by
  refine ⟨remove_references_head text i h, fun j => ?_⟩
  by_contra hj
  have hj2 : refMatchAt "references".toList ((text.take i).drop j) = true :=
    (Bool.not_eq_false _).mp hj
  have hne : (text.take i).drop j ≠ [] := by
    intro he
    rw [he] at hj2
    simp [refMatchAt] at hj2
  have hjlt : j < (text.take i).length := by
    by_contra hge
    exact hne (List.drop_eq_nil_of_le (Nat.le_of_not_lt hge))
  have hjlti : j < i :=
    lt_of_lt_of_le hjlt (List.length_take_le i text)
  have hdecomp : (text.take i).drop j ++ text.drop i = text.drop j := by
    conv_rhs => rw [← List.take_append_drop i text]
    rw [List.drop_append_of_le_length (le_of_lt hjlt)]
  have hmm := refMatchAt_append "references".toList (by decide) _ (text.drop i) hj2
  rw [hdecomp] at hmm
  have hf := (findRefStart_spec "references".toList text i h).2 j hjlti
  rw [hmm] at hf
  simp at hf

/-- Witness for `references_priority_trunc` at the counterexample text. -/
theorem references_priority_trunc_witness :
    findRefStart "references".toList
        "intro text here\nBIBLIOGRAPHY\nbbb\nREFERENCES\nccc\n".toList = some 32 ∧
      (remove_references_section
          "intro text here\nBIBLIOGRAPHY\nbbb\nREFERENCES\nccc\n".toList
          = ("intro text here\nBIBLIOGRAPHY\nbbb\nREFERENCES\nccc\n".toList).take 32 ∧
        ∀ j, refMatchAt "references".toList
          ((("intro text here\nBIBLIOGRAPHY\nbbb\nREFERENCES\nccc\n".toList).take 32).drop j)
          = false) :=
  ⟨by decide,
    references_priority_trunc
      "intro text here\nBIBLIOGRAPHY\nbbb\nREFERENCES\nccc\n".toList 32 (by decide)⟩

/-- The default-last element of a nonempty list is a member. -/
theorem getLastD_mem_of_ne_nil : ∀ (l : List Str), l ≠ [] → ∀ d, l.getLastD d ∈ l := by
  intro l
  induction l with
  | nil => intro h; exact absurd rfl h
  | cons a rest ih =>
    intro _ d
    cases rest with
    | nil => simp [List.getLastD]
    | cons b rest2 =>
      rw [List.getLastD_cons]
      exact List.mem_cons_of_mem a (ih (by simp) a)

/-- `sumLen` over a cons. -/
theorem sumLen_cons (a : Str) (l : List Str) :
    sumLen (a :: l) = a.length + sumLen l := by simp [sumLen]

/-- `sumLen` over an append. -/
theorem sumLen_append (l1 l2 : List Str) :
    sumLen (l1 ++ l2) = sumLen l1 + sumLen l2 := by simp [sumLen]

/-- Length of a separated join: unit characters plus one separator per
boundary. -/
theorem joinSep_length (sep : Str) :
    ∀ (l : List Str) (x : Str),
      (joinSep sep (x :: l)).length = x.length + sumLen l + sep.length * l.length := by
  intro l
  induction l with
  | nil => intro x; simp [joinSep, sumLen]
  | cons y ys ih =>
    intro x
    simp only [joinSep, List.length_append]
    rw [ih y]
    simp only [sumLen_cons, List.length_cons]
    ring

/-- A list of nonempty strings has at most as many elements as characters. -/
theorem length_le_sumLen : ∀ (l : List Str), (∀ u ∈ l, u ≠ []) → l.length ≤ sumLen l := by
  intro l
  induction l with
  | nil => intro _; simp [sumLen]
  | cons a rest ih =>
    intro h
    have ha : a ≠ [] := h a (by simp)
    have h1 : 1 ≤ a.length := by
      cases a with
      | nil => exact absurd rfl ha
      | cons _ _ => simp
    have h2 := ih (fun u hu => h u (by simp [hu]))
    simp only [List.length_cons, sumLen_cons]
    omega

/-- Every string starts with itself, whatever follows. -/
theorem strStarts_self_append : ∀ (s t : Str), strStarts s (s ++ t) = true := by
  intro s t
  induction s with
  | nil => rfl
  | cons c cs ih => simp [strStarts, ih]

/-- A prefix occurrence is an occurrence. -/
theorem strContains_of_starts : ∀ (u t : Str), strStarts u t = true → strContains u t = true := by
  intro u t h
  cases t with
  | nil =>
    cases u with
    | nil => rfl
    | cons c cs => simp [strStarts] at h
  | cons c rest => simp [strContains, h]

/-- An occurrence survives prepending text. -/
theorem strContains_append_left :
    ∀ (a t u : Str), strContains u t = true → strContains u (a ++ t) = true := by
  intro a
  induction a with
  | nil => intro t u h; simpa using h
  | cons c cs ih =>
    intro t u h
    show (strStarts u (c :: (cs ++ t)) || strContains u (cs ++ t)) = true
    rw [ih t u h]
    simp

/-- Each unit of a separated join occurs in the join. -/
theorem mem_join_contains (sep : Str) :
    ∀ (l : List Str) (u : Str), u ∈ l → strContains u (joinSep sep l) = true := by
  intro l
  induction l with
  | nil => intro u h; simp at h
  | cons x rest ih =>
    intro u hu
    cases rest with
    | nil =>
      simp only [List.mem_singleton] at hu
      subst hu
      have hst := strStarts_self_append u []
      rw [List.append_nil] at hst
      exact strContains_of_starts _ _ hst
    | cons y ys =>
      rcases List.mem_cons.mp hu with rfl | h2
      · have hst : strStarts u (u ++ (sep ++ joinSep sep (y :: ys))) = true :=
          strStarts_self_append _ _
        rw [← List.append_assoc] at hst
        exact strContains_of_starts _ _ hst
      · show strContains u (x ++ sep ++ joinSep sep (y :: ys)) = true
        rw [List.append_assoc]
        exact strContains_append_left x _ u
          (strContains_append_left sep _ u (ih u h2))

/-- A chunk emitted by the sentence loop from a buffer satisfying the loop
invariant is either within three times `max_chars`, or contains one of its
units, itself longer than `max_chars`. -/
theorem join_space_ok (mc : Nat) (allowed : Str → Prop) (cur : List Str)
    (hne : cur ≠ []) (hcur : ∀ u ∈ cur, u ≠ [] ∧ allowed u)
    (hJ : sumLen cur ≤ mc ∨ cur.length ≤ 2) :
    (joinSep [' '] cur).length ≤ 3 * mc ∨
      ∃ u, allowed u ∧ strContains u (joinSep [' '] cur) = true ∧ mc < u.length := by
  obtain ⟨x, l, rfl⟩ : ∃ x l, cur = x :: l := by
    cases cur with
    | nil => exact absurd rfl hne
    | cons x l => exact ⟨x, l, rfl⟩
  have hlen := joinSep_length [' '] l x
  simp only [List.length_singleton, one_mul] at hlen
  rcases hJ with hsum | hcard
  · left
    have hn := length_le_sumLen (x :: l) (fun u hu => (hcur u hu).1)
    simp only [List.length_cons, sumLen_cons] at hn hsum
    omega
  · cases l with
    | nil =>
      by_cases hx : x.length ≤ 3 * mc
      · left
        simpa [joinSep] using hx
      · right
        refine ⟨x, (hcur x (by simp)).2, mem_join_contains [' '] [x] x (by simp), ?_⟩
        omega
    | cons y ys =>
      have hys : ys = [] := by
        simp only [List.length_cons] at hcard
        cases ys with
        | nil => rfl
        | cons a b => simp at hcard
      subst hys
      by_cases h3 : (joinSep [' '] [x, y]).length ≤ 3 * mc
      · exact Or.inl h3
      · right
        have hxe : x ≠ [] := (hcur x (by simp)).1
        have hye : y ≠ [] := (hcur y (by simp)).1
        have hx1 : 1 ≤ x.length := by
          cases x with
          | nil => exact absurd rfl hxe
          | cons _ _ => simp
        have hy1 : 1 ≤ y.length := by
          cases y with
          | nil => exact absurd rfl hye
          | cons _ _ => simp
        simp [sumLen] at hlen
        by_cases hxa : mc < x.length
        · exact ⟨x, (hcur x (by simp)).2, mem_join_contains [' '] [x, y] x (by simp), hxa⟩
        · refine ⟨y, (hcur y (by simp)).2, mem_join_contains [' '] [x, y] y (by simp), ?_⟩
          omega

/-- A chunk emitted by the paragraph loop from a buffer satisfying the loop
invariant (all units at most `max_chars`) is within three times
`max_chars`, provided `max_chars ≥ 2`. -/
theorem join_nl2_ok (mc : Nat) (hmc : 2 ≤ mc) (cur : List Str)
    (hne : cur ≠ []) (hcur : ∀ u ∈ cur, u ≠ [] ∧ u.length ≤ mc)
    (hJ : sumLen cur ≤ mc ∨ cur.length ≤ 2) :
    (joinSep nl2 cur).length ≤ 3 * mc := by
  obtain ⟨x, l, rfl⟩ : ∃ x l, cur = x :: l := by
    cases cur with
    | nil => exact absurd rfl hne
    | cons x l => exact ⟨x, l, rfl⟩
  have hlen := joinSep_length nl2 l x
  have hn2 : nl2.length = 2 := rfl
  rw [hn2] at hlen
  rcases hJ with hsum | hcard
  · have hn := length_le_sumLen (x :: l) (fun u hu => (hcur u hu).1)
    simp only [List.length_cons, sumLen_cons] at hn hsum
    omega
  · cases l with
    | nil =>
      have hx := (hcur x (by simp)).2
      simp [sumLen] at hlen
      omega
    | cons y ys =>
      have hys : ys = [] := by
        simp only [List.length_cons] at hcard
        cases ys with
        | nil => rfl
        | cons a b => simp at hcard
      subst hys
      have hx := (hcur x (by simp)).2
      have hy := (hcur y (by simp)).2
      simp [sumLen] at hlen
      omega

/-- Invariant proof for the sentence loop: provided every stripped sentence
of the stream is `allowed` and the buffer satisfies the loop invariant,
every emitted chunk is either within three times `max_chars`, or contains
an `allowed` unit longer than `max_chars`. -/
theorem sentLoop_bound (mc : Nat) (allowed : Str → Prop) :
    ∀ (sents cur : List Str) (curLen : Nat),
      (∀ s ∈ sents, allowed (pyStrip s)) →
      (∀ u ∈ cur, u ≠ [] ∧ allowed u) →
      curLen = sumLen cur →
      (cur = [] ∨ sumLen cur ≤ mc ∨ cur.length ≤ 2) →
      ∀ c ∈ sentLoop mc sents cur curLen,
        c.length ≤ 3 * mc ∨
          ∃ u, allowed u ∧ strContains u c = true ∧ mc < u.length := by
  intro sents
  induction sents with
  | nil =>
    intro cur curLen _ hcur _ hJ c hc
    by_cases hne : cur = []
    · subst hne
      simp [sentLoop] at hc
    · simp only [sentLoop, if_neg hne, List.mem_singleton] at hc
      subst hc
      rcases hJ with h | hJ2
      · exact absurd h hne
      · exact join_space_ok mc allowed cur hne hcur hJ2
  | cons s rest ih =>
    intro cur curLen hs hcur hlen hJ c hc
    simp only [sentLoop] at hc
    by_cases h1 : pyStrip s = []
    · rw [if_pos h1] at hc
      exact ih cur curLen (fun x hx => hs x (by simp [hx])) hcur hlen hJ c hc
    · rw [if_neg h1] at hc
      by_cases h2 : mc < curLen + (pyStrip s).length ∧ cur ≠ []
      · rw [if_pos h2] at hc
        rcases List.mem_cons.mp hc with rfl | hc2
        · refine join_space_ok mc allowed cur h2.2 hcur ?_
          rcases hJ with h | hJ2
          · exact absurd h h2.2
          · exact hJ2
        · refine ih _ _ (fun x hx => hs x (by simp [hx])) ?_ (by simp [sumLen]) ?_ c hc2
          · intro u hu
            rcases List.mem_cons.mp hu with rfl | hu2
            · exact hcur _ (getLastD_mem_of_ne_nil cur h2.2 [])
            · simp only [List.mem_singleton] at hu2
              subst hu2
              exact ⟨h1, hs s (by simp)⟩
          · right; right; simp
      · rw [if_neg h2] at hc
        refine ih _ _ (fun x hx => hs x (by simp [hx])) ?_ ?_ ?_ c hc
        · intro u hu
          rcases List.mem_append.mp hu with hu1 | hu2
          · exact hcur u hu1
          · simp only [List.mem_singleton] at hu2
            subst hu2
            exact ⟨h1, hs s (by simp)⟩
        · simp [sumLen_append, sumLen, hlen]
        · by_cases hne : cur = []
          · subst hne; right; right; simp
          · right; left
            push_neg at h2
            have hle : curLen + (pyStrip s).length ≤ mc := by
              by_contra hgt
              exact hne (h2 (Nat.lt_of_not_le hgt))
            rw [sumLen_append, ← hlen]
            simpa [sumLen] using hle

/-- Invariant proof for the paragraph loop: every emitted chunk is either
within three times `max_chars`, or contains an `allowed` stripped sentence
longer than `max_chars` coming from one of the remaining paragraphs. -/
theorem paraLoop_bound (mc : Nat) (allowed : Str → Prop) (hmc : 2 ≤ mc) :
    ∀ (ps cur : List Str) (curLen : Nat),
      (∀ p ∈ ps, ∀ s ∈ splitSentences (pyStrip p), allowed (pyStrip s)) →
      (∀ u ∈ cur, u ≠ [] ∧ u.length ≤ mc) →
      curLen = sumLen cur →
      (cur = [] ∨ sumLen cur ≤ mc ∨ cur.length ≤ 2) →
      ∀ c ∈ paraLoop mc ps cur curLen,
        c.length ≤ 3 * mc ∨
          ∃ u, allowed u ∧ strContains u c = true ∧ mc < u.length := by
  intro ps
  induction ps with
  | nil =>
    intro cur curLen _ hcur _ hJ c hc
    by_cases hne : cur = []
    · subst hne
      simp [paraLoop] at hc
    · simp only [paraLoop, if_neg hne, List.mem_singleton] at hc
      subst hc
      rcases hJ with h | hJ2
      · exact absurd h hne
      · exact Or.inl (join_nl2_ok mc hmc cur hne hcur hJ2)
  | cons p rest ih =>
    intro cur curLen hp hcur hlen hJ c hc
    simp only [paraLoop] at hc
    by_cases h1 : pyStrip p = []
    · rw [if_pos h1] at hc
      exact ih cur curLen (fun q hq => hp q (by simp [hq])) hcur hlen hJ c hc
    · rw [if_neg h1] at hc
      by_cases h2 : mc < (pyStrip p).length
      · rw [if_pos h2] at hc
        rcases List.mem_append.mp hc with hc12 | hc3
        · rcases List.mem_append.mp hc12 with hc1 | hcS
          · by_cases hne : cur = []
            · rw [if_pos hne] at hc1
              simp at hc1
            · rw [if_neg hne] at hc1
              simp only [List.mem_singleton] at hc1
              subst hc1
              refine Or.inl (join_nl2_ok mc hmc cur hne hcur ?_)
              rcases hJ with h | hJ2
              · exact absurd h hne
              · exact hJ2
          · exact sentLoop_bound mc allowed (splitSentences (pyStrip p)) [] 0
              (hp p (by simp)) (by simp) (by simp [sumLen]) (Or.inl rfl) c hcS
        · exact ih [] 0 (fun q hq => hp q (by simp [hq])) (by simp)
            (by simp [sumLen]) (Or.inl rfl) c hc3
      · rw [if_neg h2] at hc
        have h2le : (pyStrip p).length ≤ mc := Nat.le_of_not_lt h2
        by_cases h3 : mc < curLen + (pyStrip p).length ∧ cur ≠ []
        · rw [if_pos h3] at hc
          rcases List.mem_cons.mp hc with rfl | hc2
          · refine Or.inl (join_nl2_ok mc hmc cur h3.2 hcur ?_)
            rcases hJ with h | hJ2
            · exact absurd h h3.2
            · exact hJ2
          · refine ih _ _ (fun q hq => hp q (by simp [hq])) ?_ (by simp [sumLen]) ?_ c hc2
            · intro u hu
              rcases List.mem_cons.mp hu with rfl | hu2
              · exact hcur _ (getLastD_mem_of_ne_nil cur h3.2 [])
              · simp only [List.mem_singleton] at hu2
                subst hu2
                exact ⟨h1, h2le⟩
            · right; right; simp
        · rw [if_neg h3] at hc
          refine ih _ _ (fun q hq => hp q (by simp [hq])) ?_ ?_ ?_ c hc
          · intro u hu
            rcases List.mem_append.mp hu with hu1 | hu2
            · exact hcur u hu1
            · simp only [List.mem_singleton] at hu2
              subst hu2
              exact ⟨h1, h2le⟩
          · simp [sumLen_append, sumLen, hlen]
          · by_cases hne : cur = []
            · subst hne; right; right; simp
            · right; left
              push_neg at h3
              have hle : curLen + (pyStrip p).length ≤ mc := by
                by_contra hgt
                exact hne (h3 (Nat.lt_of_not_le hgt))
              rw [sumLen_append, ← hlen]
              simpa [sumLen] using hle

/-- C2 amended: every chunk produced by `chunk_text` has estimated token
count at most `3 * max_tokens` (the bounded overshoot comes from the
blank-line separators inside a joined chunk and from the seeded overlap
unit, which is re-added without a size check), and any chunk exceeding even
that bound contains — as a substring — a single indivisible sentence of
some source paragraph whose length alone exceeds `max_tokens * 4`
characters.  The claim's bound `max_tokens` itself does not hold (see the
counterexample). -/
theorem chunk_text_size_bound (T o : Nat) (hT : 1 ≤ T) (text : Str) :
    ∀ c ∈ (TextChunker.init T o).chunk_text text,
      estimate_tokens c ≤ 3 * T ∨
        ∃ p ∈ pySplit nl2 text, ∃ s ∈ splitSentences (pyStrip p),
          strContains (pyStrip s) c = true ∧ T * 4 < (pyStrip s).length := by
  intro c hc
  simp only [TextChunker.chunk_text, TextChunker.chunk_by_paragraphs,
    TextChunker.init] at hc
  by_cases hfast : estimate_tokens text ≤ T
  · rw [if_pos hfast] at hc
    simp only [List.mem_singleton] at hc
    subst hc
    exact Or.inl (le_trans hfast (by omega))
  · rw [if_neg hfast] at hc
    have hb := paraLoop_bound (T * 4)
      (fun u => ∃ p ∈ pySplit nl2 text, ∃ s ∈ splitSentences (pyStrip p), u = pyStrip s)
      (by omega) (pySplit nl2 text) [] 0
      (fun p hp s hs => ⟨p, hp, s, hs, rfl⟩)
      (by simp) (by simp [sumLen]) (Or.inl rfl) c hc
    rcases hb with hlen | ⟨u, ⟨p, hp, s, hs, rfl⟩, hcont, hul⟩
    · left
      unfold estimate_tokens
      omega
    · exact Or.inr ⟨p, hp, s, hs, hcont, hul⟩

/-- Witness for `chunk_text_size_bound` at `max_tokens = 3` on the
counterexample text. -/
theorem chunk_text_size_bound_witness :
    1 ≤ 3 ∧ ∀ c ∈ (TextChunker.init 3 200).chunk_text "aaaaaaaaa.\n\nbbbbbbb.".toList,
      estimate_tokens c ≤ 3 * 3 ∨
        ∃ p ∈ pySplit nl2 "aaaaaaaaa.\n\nbbbbbbb.".toList,
          ∃ s ∈ splitSentences (pyStrip p),
            strContains (pyStrip s) c = true ∧ 3 * 4 < (pyStrip s).length :=
  ⟨by decide, chunk_text_size_bound 3 200 (by decide) "aaaaaaaaa.\n\nbbbbbbb.".toList⟩
